import Mathlib

/-!
# old-faithful-gateway: a shallow embedding of the block-retrieval core

The embedding follows `src/gateway.go` and `src/cid-to-offset-reader.go`.
Calls into third-party packages (`net/http`, `go-cid`, `compactindexsized`,
`indexes`, `indexmeta`, `go-car`, `boxo`) are taken as fields of an environment
structure, so the theorems hold for whatever those packages compute. Where a
property depends on what a package does (`io.ReadFull`, `indexes.BtoUint64`, the
lookup of the compact index, the block service) the package function is written out.
A call that can panic returns a `Ret`, which keeps the panic apart from a returned
error.
Stateful code is written in state-passing style: a call returns its results
together with everything it did to the outside world (requests sent, body reads,
index lookups).
-/

set_option maxRecDepth 20000

namespace OldFaithful

/-! ## Bytes, errors, content identifiers -/

/-- One byte. -/
abbrev Byte := Fin 256

/-- The bytes of an ASCII string literal, Go's `[]byte("...")`. -/
def bytesOf (s : String) : List Byte := s.toList.map (fun ch => Fin.ofNat ch.toNat)

/-- Error values that originate outside this package: the sentinels the source
compares against or returns by name, and any other library error. -/
inductive LibErr where
  | EOF
  | ErrUnexpectedEOF
  | ErrShortBuffer
  | ErrHashMismatch
  | ErrWrongHash
  | ErrNotFound
  | other (msg : String)
  deriving DecidableEq, Repr

/-- Error values as seen by callers of this package. `errorf` and `wrapf` are the
values built by `fmt.Errorf` inside this package (without and with `%w`); `lib` is a
library error handed on unchanged. A value built by `fmt.Errorf` is a fresh error
value, so it is never equal to one that a library returned. -/
inductive Err where
  | errorf (msg : String)
  | wrapf (msg : String) (cause : Err)
  | lib (e : LibErr)
  deriving DecidableEq, Repr

/-- How a call into this package ends: it returns a value, it returns an error, or it
panics and returns nothing. -/
inductive Ret (α : Type) where
  | ok (a : α)
  | error (e : Err)
  | panic (msg : String)

/-- Content identifier, go-cid's `type Cid struct{ str string }`: the binary form. -/
structure Cid where
  str : List Byte
  deriving DecidableEq, Repr

/-- The zero value `cid.Undef`. -/
def Cid.Undef : Cid := ⟨[]⟩

/-- The canonical bytes `c.Bytes()`, i.e. `[]byte(c.str)`. -/
def Cid.Bytes (c : Cid) : List Byte := c.str

/-- The comparison `c.Equals(o)`, i.e. `c == o`. -/
def Cid.Equals (c o : Cid) : Bool := decide (c = o)

/-! ## HTTP range reader (`gateway.go`, `HTTPReaderAt`) -/

/-- Wrap-around of a mathematical integer into the `int64` range. -/
def wrapInt64 (x : Int) : Int := (x + 2 ^ 63) % 2 ^ 64 - 2 ^ 63

/-- The decimal digit character of `d < 10`. -/
def decDigit (d : Nat) : Char := Char.ofNat (48 + d)

/-- The digit loop of `strconv.FormatInt` in base 10: peel the low digit while the
value is at least 10, then emit the leading digit. `fuel` bounds the iterations. -/
def formatBits : Nat → Nat → List Char → List Char
  | 0, _, acc => acc
  | fuel + 1, u, acc =>
    if 10 ≤ u then formatBits fuel (u / 10) (decDigit (u % 10) :: acc)
    else decDigit u :: acc

/-- The verb `%d` applied to a signed integer. -/
def FormatInt (i : Int) : List Char :=
  if i < 0 then '-' :: formatBits (i.natAbs + 1) i.natAbs []
  else formatBits (i.natAbs + 1) i.natAbs []

/-- Value of a string of decimal digits. -/
def decValue (cs : List Char) : Nat := cs.foldl (fun acc ch => 10 * acc + (ch.toNat - 48)) 0

/-- Reading back a signed decimal. -/
def ParseInt : List Char → Int
  | '-' :: cs => -(decValue cs : Int)
  | cs => (decValue cs : Int)

/-- The string `fmt.Sprintf("bytes=%d-%d", first, last)`. -/
def Sprintf_bytes (first last : Int) : String :=
  String.mk ("bytes=".toList ++ FormatInt first ++ '-' :: FormatInt last)

/-- The type `http.Header`, reduced to one value per key. -/
structure Header where
  entries : List (String × String)
  deriving DecidableEq, Repr

/-- The call `h.Set(key, value)`: replaces whatever `key` held. -/
def Header.Set (h : Header) (key value : String) : Header :=
  ⟨(key, value) :: h.entries.filter (fun kv => kv.1 != key)⟩

/-- The call `h.Get(key)`. -/
def Header.Get (h : Header) (key : String) : Option String :=
  (h.entries.find? (fun kv => kv.1 == key)).map (fun kv => kv.2)

/-- The fields of `http.Request` the reader touches. -/
structure Request where
  Method : String
  URL : String
  Header : Header
  deriving DecidableEq, Repr

/-- A response body as an `io.Reader`: the chunks successive `Read` calls can
deliver, and the error returned once they are used up (`io.EOF` for a body that
ended normally, another error for a broken connection). -/
structure Body where
  chunks : List (List Byte)
  term : LibErr
  deriving DecidableEq, Repr

/-- All bytes the body holds. -/
def Body.bytes (b : Body) : List Byte := b.chunks.flatten

/-- One `Read` into a buffer of capacity `k`: the bytes delivered, the error, and
the body that remains. -/
def Body.Read (b : Body) (k : Nat) : List Byte × Option LibErr × Body :=
  match b.chunks with
  | [] => ([], some b.term, b)
  | c :: rest =>
    if c.length ≤ k then (c, none, { b with chunks := rest })
    else (c.take k, none, { b with chunks := c.drop k :: rest })

/-- The fields of `http.Response` the reader touches. -/
structure Response where
  StatusCode : Nat
  Status : String
  Body : Body
  deriving DecidableEq, Repr

/-- The constant `http.StatusPartialContent`. -/
def StatusPartialContent : Nat := 206

/-- The network as seen from `ReadAt`: building a request and performing it. -/
structure HTTPEnv where
  /-- The call `http.NewRequest(method, url, nil)`. -/
  NewRequest : String → String → Except LibErr Request
  /-- The call `client.Do(req)`. -/
  Do : Request → Except LibErr Response

/-- Loop state of `io.ReadAtLeast`. -/
structure ReadState where
  n : Nat
  err : Option LibErr
  buf : List Byte
  body : Body
  reads : Nat
  deriving DecidableEq, Repr

/-- The loop `for n < min && err == nil { nn, err = r.Read(buf[n:]); n += nn }`. -/
def readLoop (min : Nat) : Nat → ReadState → ReadState
  | 0, s => s
  | fuel + 1, s =>
    if s.n < min ∧ s.err = none then
      let r := s.body.Read (s.buf.length - s.n)
      readLoop min fuel
        { n := s.n + r.1.length
          err := r.2.1
          buf := s.buf.take s.n ++ r.1 ++ s.buf.drop (s.n + r.1.length)
          body := r.2.2
          reads := s.reads + 1 }
    else s

/-- The function `io.ReadAtLeast(r, buf, min)`. Every iteration of the loop either
uses up a chunk, fills the buffer or meets the final error, so one more iteration
than there are chunks is enough. -/
def ReadAtLeast (body : Body) (buf : List Byte) (min : Nat) : ReadState :=
  if buf.length < min then
    { n := 0, err := some .ErrShortBuffer, buf := buf, body := body, reads := 0 }
  else
    let s := readLoop min (body.chunks.length + 1)
      { n := 0, err := none, buf := buf, body := body, reads := 0 }
    if min ≤ s.n then { s with err := none }
    else if 0 < s.n ∧ s.err = some .EOF then { s with err := some .ErrUnexpectedEOF }
    else s

/-- The function `io.ReadFull(r, buf)`. -/
def ReadFull (body : Body) (buf : List Byte) : ReadState :=
  ReadAtLeast body buf buf.length

/-- The reader of `gateway.go`. -/
structure HTTPReaderAt where
  url : String
  deriving DecidableEq, Repr

/-- The constructor `NewHTTPReaderAt`. -/
def NewHTTPReaderAt (url : String) : HTTPReaderAt := { url := url }

/-- What one `ReadAt` call returns and does: the count and error it returns, the
buffer afterwards, the requests handed to `client.Do`, and the number of `Read`
calls made on the response body. -/
structure ReadAtResult where
  n : Nat
  err : Option Err
  p : List Byte
  requests : List Request
  bodyReads : Nat
  deriving DecidableEq, Repr

/-- The last byte position `off+int64(len(p))-1`, each operation in `int64`. -/
def lastByte (off : Int) (len : Nat) : Int :=
  wrapInt64 (wrapInt64 (off + (len : Int)) - 1)

/-- The method `(*HTTPReaderAt).ReadAt`. The deferred `resp.Body.Close()` changes
nothing that is returned and is left out. -/
def HTTPReaderAt.ReadAt (env : HTTPEnv) (h : HTTPReaderAt) (p : List Byte) (off : Int) :
    ReadAtResult :=
  match env.NewRequest "GET" h.url with
  | .error e => { n := 0, err := some (.lib e), p := p, requests := [], bodyReads := 0 }
  | .ok req0 =>
    let rangeHeader := Sprintf_bytes off (lastByte off p.length)
    let req := { req0 with Header := req0.Header.Set "Range" rangeHeader }
    match env.Do req with
    | .error e => { n := 0, err := some (.lib e), p := p, requests := [req], bodyReads := 0 }
    | .ok resp =>
      if resp.StatusCode ≠ StatusPartialContent then
        { n := 0
          err := some (.errorf ("server does not support range requests: status " ++ resp.Status))
          p := p, requests := [req], bodyReads := 0 }
      else
        let r := ReadFull resp.Body p
        { n := r.n, err := r.err.map Err.lib, p := r.buf, requests := [req], bodyReads := r.reads }

/-- The method `(*HTTPReaderAt).Close`. -/
def HTTPReaderAt.Close (_h : HTTPReaderAt) : Option Err := none

/-- A server for the examples: any URL is accepted and every request is answered with
the given response. -/
def fixedServer (resp : Response) : HTTPEnv where
  NewRequest := fun method url => .ok { Method := method, URL := url, Header := ⟨[]⟩ }
  Do := fun _ => .ok resp


/-! ## Offset index reader (`cid-to-offset-reader.go`) -/

/-- An `*os.File` as far as the reader is concerned: its name and whether it has
been closed. -/
structure File where
  name : String
  closed : Bool
  deriving DecidableEq, Repr

/-- The interface `ReaderAtCloser` with the two implementations the package hands
to it: an `*os.File` (`Open_CidToOffsetAndSize`) and an `*HTTPReaderAt`
(`NewYellowstoneIndex`). -/
inductive ReaderAtCloser where
  | file (f : File)
  | http (h : HTTPReaderAt)
  deriving DecidableEq, Repr

/-- The method `Close` of the interface: the handle afterwards and the error. An
`*os.File` becomes closed (closing it twice is an error); `HTTPReaderAt.Close` has
nothing to release. -/
def ReaderAtCloser.Close : ReaderAtCloser → ReaderAtCloser × Option Err
  | .file f =>
    if f.closed then (.file f, some (.lib (.other "file already closed")))
    else (.file { f with closed := true }, none)
  | .http h => (.http h, h.Close)

/-- The entry type `indexmeta.KV`. -/
structure KV where
  Key : List Byte
  Value : List Byte
  deriving DecidableEq, Repr

/-- The type `indexmeta.Meta`: the key/value entries of the index header. -/
structure Meta where
  KeyVals : List KV
  deriving DecidableEq, Repr

/-- Modelled from the spec: `Meta.Get` of package `indexmeta`, which is not part of
the sources; the header holds key/value entries, and `Get` returns the value stored
under a key together with whether the key is present. -/
def Meta.Get (m : Meta) (key : List Byte) : List Byte × Bool :=
  match m.KeyVals.find? (fun kv => kv.Key == key) with
  | some kv => (kv.Value, true)
  | none => ([], false)

/-- The header of an opened compact index. -/
structure DBHeader where
  Metadata : Meta
  deriving DecidableEq, Repr

/-- The type `compactindexsized.DB`, as far as this package reads it: the header and
the entries of the index file. The file does not keep the keys it was built from: an
entry is the hash of its key and the value bytes. -/
structure DB where
  Header : DBHeader
  Entries : List (Nat × List Byte)
  deriving DecidableEq, Repr

/-- The type `indexes.Metadata`. -/
structure Metadata where
  IndexKind : List Byte
  Epoch : Nat
  RootCid : Cid
  Network : List Byte
  deriving DecidableEq, Repr

/-- The type `indexes.OffsetAndSize`. -/
structure OffsetAndSize where
  Offset : Nat
  Size : Nat
  deriving DecidableEq, Repr

/-- The sentinel `Kind_CidToOffsetAndSize`. -/
def Kind_CidToOffsetAndSize : List Byte := bytesOf "cid-to-offset-and-size"

/-- Modelled from the spec: `Metadata.AssertIndexKind` of package `indexes`, which is
not part of the sources; it verifies that the `kind` field equals the expected
sentinel and fails otherwise. -/
def Metadata.AssertIndexKind (m : Metadata) (expected : List Byte) : Option LibErr :=
  if m.IndexKind = expected then none else some (.other "wrong index kind")

/-- Little-endian value of a byte string. -/
def leValue (bs : List Byte) : Nat := bs.foldr (fun b acc => b.val + 256 * acc) 0

/-- The decoder `indexes.BtoUint64`, that is `binary.LittleEndian.Uint64(buf)`: it
indexes `buf[7]`, so it panics on fewer than eight bytes (`none`), and otherwise gives
the little-endian value of the first eight. -/
def BtoUint64 (buf : List Byte) : Option Nat :=
  if buf.length < 8 then none else some (leValue (buf.take 8))

/-- What the index packages provide to this file: the metadata keys, the identifier
parser, the network allow-list, the value decoder, and the compact index itself. -/
structure IndexEnv where
  MetadataKey_Kind : List Byte
  MetadataKey_Epoch : List Byte
  MetadataKey_RootCid : List Byte
  MetadataKey_Network : List Byte
  /-- The parser `cid.Cast`. -/
  Cast : List Byte → Except LibErr Cid
  /-- The allow-list test `indexes.IsValidNetwork`. -/
  IsValidNetwork : List Byte → Bool
  /-- The call `os.Open(file)`. -/
  osOpen : String → Except LibErr File
  /-- The call `compactindexsized.Open(reader)`. -/
  Open : ReaderAtCloser → Except LibErr DB
  /-- The hash the compact index keeps in place of a key. -/
  Hash : List Byte → Nat
  /-- The error, if any, of reading the index through a handle in its current state
  (a closed file, a failing connection). -/
  ReadErr : ReaderAtCloser → Option LibErr
  /-- The decoder `(*OffsetAndSize).FromBytes`. -/
  FromBytes : List Byte → Except LibErr OffsetAndSize

/-- The method `(*DB).Lookup` of package `compactindexsized`, which is not part of the
sources. The index reads through the handle it was opened on, so the lookup sees the
handle in its current state and a read error ends it; otherwise it hashes the key and
answers with the value of the entry stored under that hash, or with the not-found
error when no entry has that hash. The key itself is never compared. -/
def DB.Lookup (env : IndexEnv) (db : DB) (stream : ReaderAtCloser) (key : List Byte) :
    Except LibErr (List Byte) :=
  match env.ReadErr stream with
  | some err => .error err
  | none =>
    match db.Entries.find? (fun e => e.1 == env.Hash key) with
    | some e => .ok e.2
    | none => .error .ErrNotFound

/-- The reader type of `cid-to-offset-reader.go`. -/
structure CidToOffsetAndSize_Reader where
  file : ReaderAtCloser
  meta : Metadata
  index : DB
  deriving DecidableEq, Repr

/-- The function `getDefaultMetadata`. The epoch is decoded as soon as its key is
found, before the root identifier is looked at. -/
def getDefaultMetadata (env : IndexEnv) (index : DB) : Ret Metadata :=
  let meta := index.Header.Metadata
  let kind := meta.Get env.MetadataKey_Kind
  if kind.2 then
    let epoch := meta.Get env.MetadataKey_Epoch
    if epoch.2 then
      match BtoUint64 epoch.1 with
      | none => .panic "index out of range"
      | some epochValue =>
        let rootCid := meta.Get env.MetadataKey_RootCid
        if rootCid.2 then
          match env.Cast rootCid.1 with
          | .error err => .error (.lib err)
          | .ok root =>
            let network := meta.Get env.MetadataKey_Network
            if network.2 then
              .ok { IndexKind := kind.1, Epoch := epochValue, RootCid := root
                    Network := network.1 }
            else .error (.errorf "metadata.network is empty")
        else .error (.errorf "metadata.rootCid is empty")
    else .error (.errorf "metadata.epoch is empty")
  else .error (.errorf "metadata.kind is empty (index kind)")

/-- The function `OpenWithReader_CidToOffsetAndSize`. -/
def OpenWithReader_CidToOffsetAndSize (env : IndexEnv) (reader : ReaderAtCloser) :
    Ret CidToOffsetAndSize_Reader :=
  match env.Open reader with
  | .error err => .error (.wrapf "failed to open index" (.lib err))
  | .ok index =>
    match getDefaultMetadata env index with
    | .panic msg => .panic msg
    | .error err => .error err
    | .ok meta =>
      if !env.IsValidNetwork meta.Network then .error (.errorf "invalid network")
      else if meta.RootCid = Cid.Undef then .error (.errorf "root cid is undefined")
      else
        match meta.AssertIndexKind Kind_CidToOffsetAndSize with
        | some err => .error (.lib err)
        | none => .ok { file := reader, meta := meta, index := index }

/-- The function `Open_CidToOffsetAndSize`. -/
def Open_CidToOffsetAndSize (env : IndexEnv) (file : String) :
    Ret CidToOffsetAndSize_Reader :=
  match env.osOpen file with
  | .error err => .error (.wrapf "failed to open index file" (.lib err))
  | .ok reader => OpenWithReader_CidToOffsetAndSize env (.file reader)

/-- What one `Get` call returns and does: the record or the error, and the keys it
looked up in the compact index. -/
structure GetResult where
  record : Except Err OffsetAndSize
  lookups : List (List Byte)

/-- The method `(*CidToOffsetAndSize_Reader).Get`. -/
def CidToOffsetAndSize_Reader.Get (env : IndexEnv) (r : CidToOffsetAndSize_Reader)
    (cid_ : Cid) : GetResult :=
  if cid_ = Cid.Undef then { record := .error (.errorf "cid is undefined"), lookups := [] }
  else
    let key := cid_.Bytes
    match r.index.Lookup env r.file key with
    | .error err => { record := .error (.lib err), lookups := [key] }
    | .ok value =>
      match env.FromBytes value with
      | .error err => { record := .error (.lib err), lookups := [key] }
      | .ok oas => { record := .ok oas, lookups := [key] }

/-- The method `(*CidToOffsetAndSize_Reader).Close`: the reader afterwards and the
error of closing its file. -/
def CidToOffsetAndSize_Reader.Close (r : CidToOffsetAndSize_Reader) :
    CidToOffsetAndSize_Reader × Option Err :=
  ({ r with file := r.file.Close.1 }, r.file.Close.2)

/-- The method `(*CidToOffsetAndSize_Reader).Meta`. -/
def CidToOffsetAndSize_Reader.Meta (r : CidToOffsetAndSize_Reader) : Metadata := r.meta

/-- The wrapper `CarIndexWrapper`. -/
structure CarIndexWrapper where
  inner : CidToOffsetAndSize_Reader
  deriving DecidableEq, Repr

/-- The methods `Codec`, `Marshal`, `Unmarshal` and `Load` of `CarIndexWrapper`: each
is `panic("implement me")`. -/
def CarIndexWrapper.unimplemented (_i : CarIndexWrapper) : Ret Unit := .panic "implement me"

/-- The method `(*CarIndexWrapper).GetAll`: the error, and the offsets handed to the
callback `f`. -/
def CarIndexWrapper.GetAll (env : IndexEnv) (i : CarIndexWrapper) (c : Cid) :
    Option Err × List Nat :=
  match (i.inner.Get env c).record with
  | .error err => (some err, [])
  | .ok offsetAndSize => (none, [offsetAndSize.Offset])

/-- The function `NewYellowstoneIndex`. -/
def NewYellowstoneIndex (env : IndexEnv) (indexUrl : String) : Ret CarIndexWrapper :=
  let indexReader := NewHTTPReaderAt indexUrl
  match OpenWithReader_CidToOffsetAndSize env (.http indexReader) with
  | .panic msg => .panic msg
  | .error err => .error err
  | .ok r => .ok { inner := r }

/-! ## Block store and block service (`gateway.go`) -/

/-- The type `blocks.BasicBlock`: data paired with an identifier. -/
structure Block where
  data : List Byte
  cid : Cid
  deriving DecidableEq, Repr

/-- The method `RawData`. -/
def Block.RawData (b : Block) : List Byte := b.data

/-- The interface `blockstore.Blockstore`, the methods this package calls. -/
structure Blockstore where
  Get : Cid → Except Err Block
  GetSize : Cid → Except Err Nat

/-- The type `cid.Prefix`. -/
structure Prefix where
  Version : Nat
  Codec : Nat
  MhType : Nat
  MhLength : Int
  deriving DecidableEq, Repr

/-- What package `go-cid` and the block package provide: the prefix of an identifier,
hashing bytes under a prefix, and the debug switch of `blocks.NewBlockWithCid`. -/
structure CidEnv where
  /-- The method `c.Prefix()`. -/
  Prefix : Cid → Prefix
  /-- The method `p.Sum(data)`. -/
  Sum : OldFaithful.Prefix → List Byte → Except LibErr Cid
  /-- The flag `u.Debug`. -/
  Debug : Bool

/-- The function `blocks.NewBlockWithCid`: pairs the data with the identifier; with
the debug flag set it first checks the hash itself. -/
def NewBlockWithCid (env : CidEnv) (data : List Byte) (c : Cid) : Except Err Block :=
  if env.Debug then
    match env.Sum (env.Prefix c) data with
    | .error err => .error (.lib err)
    | .ok chkc =>
      if !chkc.Equals c then .error (.lib .ErrWrongHash)
      else .ok { data := data, cid := c }
  else .ok { data := data, cid := c }

/-- The type `ReadOnlyBlockstoreValidator`, a block store embedding another. -/
structure ReadOnlyBlockstoreValidator where
  Blockstore : Blockstore

/-- The method `(*ReadOnlyBlockstoreValidator).Get`. -/
def ReadOnlyBlockstoreValidator.Get (env : CidEnv) (b : ReadOnlyBlockstoreValidator)
    (c : Cid) : Except Err Block :=
  match b.Blockstore.Get c with
  | .error err => .error err
  | .ok blk =>
    match env.Sum (env.Prefix c) blk.RawData with
    | .error err => .error (.lib err)
    | .ok calculatedCid =>
      if !calculatedCid.Equals c then .error (.lib .ErrHashMismatch)
      else NewBlockWithCid env blk.RawData c

/-- The method `(*ReadOnlyBlockstoreValidator).GetSize`. -/
def ReadOnlyBlockstoreValidator.GetSize (b : ReadOnlyBlockstoreValidator) (c : Cid) :
    Except Err Nat :=
  b.Blockstore.GetSize c

/-- A validator used where a `blockstore.Blockstore` is expected. -/
def ReadOnlyBlockstoreValidator.toBlockstore (env : CidEnv)
    (b : ReadOnlyBlockstoreValidator) : OldFaithful.Blockstore where
  Get := b.Get env
  GetSize := b.GetSize

/-- The type `carbs.ReadOnly`: a block store over an archive that also lists the
archive's roots. -/
structure ReadOnly where
  Get : Cid → Except Err Block
  GetSize : Cid → Except Err Nat
  Roots : Except Err (List Cid)

/-- A `carbs.ReadOnly` used where a `blockstore.Blockstore` is expected. -/
def ReadOnly.toBlockstore (bs : ReadOnly) : Blockstore where
  Get := bs.Get
  GetSize := bs.GetSize

/-- The test `ipld.IsNotFound`. -/
def IsNotFound : Err → Bool
  | .lib .ErrNotFound => true
  | _ => false

/-- The interface `exchange.Interface`, the method the block service calls. -/
structure Exchange where
  GetBlock : Cid → Except Err Block

/-- The function `offline.Exchange(bs)`: an exchange that only reads the block store. -/
def offline.Exchange (bs : Blockstore) : Exchange where
  GetBlock := fun k =>
    match bs.Get k with
    | .error err =>
      if IsNotFound err then .error (.wrapf "block was not found locally (offline)" err)
      else .error err
    | .ok blk => .ok blk

/-- The block service returned by `blockservice.New`. -/
structure BlockService where
  Blockstore : Blockstore
  Exchange : Exchange

/-- The function `blockservice.New(bs, exchange)`. -/
def blockservice.New (bs : Blockstore) (ex : Exchange) : BlockService where
  Blockstore := bs
  Exchange := ex

/-- The method `GetBlock` of the block service: the block store is read first and the
exchange is asked only when the block store does not have the block. -/
def BlockService.GetBlock (s : BlockService) (c : Cid) : Except Err Block :=
  match s.Blockstore.Get c with
  | .ok blk => .ok blk
  | .error err => if IsNotFound err then s.Exchange.GetBlock c else .error err

/-- What package `go-car` provides: opening a read-only block store over an archive
reader and an index. -/
structure CarEnv where
  /-- The call `carbs.NewReadOnly(carReader, idx)`. -/
  NewReadOnly : HTTPReaderAt → CarIndexWrapper → Except LibErr ReadOnly

/-- The function `newBlockServiceFromCAR`: the block service, and the roots printed
on the way. -/
def newBlockServiceFromCAR (ienv : IndexEnv) (cenv : CarEnv) (carUrl indexUrl : String) :
    Ret (BlockService × List Cid) :=
  let carReader := NewHTTPReaderAt carUrl
  match NewYellowstoneIndex ienv indexUrl with
  | .panic msg => .panic msg
  | .error err => .error err
  | .ok idx =>
    match cenv.NewReadOnly carReader idx with
    | .error err => .error (.lib err)
    | .ok bs =>
      match bs.Roots with
      | .error err => .error err
      | .ok roots =>
        let blockService := blockservice.New bs.toBlockstore (offline.Exchange bs.toBlockstore)
        .ok (blockService, roots)

/-! ## Concrete environments, for evaluating the definitions on examples -/

/-- A value decoder: nine bytes, six of offset then three of size, little-endian. -/
def decodeNine (buf : List Byte) : Except LibErr OffsetAndSize :=
  if buf.length ≠ 9 then .error (.other "invalid byte slice length")
  else .ok { Offset := leValue (buf.take 6), Size := leValue (buf.drop 6) }

/-- A short hash of a key: the sum of its bytes, reduced to 24 bits. -/
def byteSumHash (key : List Byte) : Nat := (key.map (fun b => b.val)).sum % 2 ^ 24

/-- An index environment over a header and the key/value pairs the index was built
from. Every handle opens; reading through a closed file fails; an identifier needs at
least one byte to parse. -/
def tableIndex (header : Meta) (table : List (List Byte × List Byte)) : IndexEnv where
  MetadataKey_Kind := bytesOf "index_kind"
  MetadataKey_Epoch := bytesOf "epoch"
  MetadataKey_RootCid := bytesOf "root_cid"
  MetadataKey_Network := bytesOf "network"
  Cast := fun bs => if bs = [] then .error (.other "invalid cid") else .ok ⟨bs⟩
  IsValidNetwork := fun n =>
    n == bytesOf "mainnet" || n == bytesOf "testnet" || n == bytesOf "devnet"
  osOpen := fun name => .ok { name := name, closed := false }
  Open := fun _ =>
    .ok { Header := { Metadata := header }
          Entries := table.map (fun kv => (byteSumHash kv.1, kv.2)) }
  Hash := byteSumHash
  ReadErr := fun handle =>
    match handle with
    | .file f => if f.closed then some (.other "file already closed") else none
    | .http _ => none
  FromBytes := decodeNine

/-- A hashing environment with a one-byte checksum as digest: an identifier is
version, codec, hash type, digest length, digest. -/
def checksumCid : CidEnv where
  Prefix := fun c =>
    { Version := (c.str.getD 0 0).val, Codec := (c.str.getD 1 0).val
      MhType := (c.str.getD 2 0).val, MhLength := (c.str.getD 3 0).val }
  Sum := fun p data =>
    .ok ⟨[Fin.ofNat p.Version, Fin.ofNat p.Codec, Fin.ofNat p.MhType, 1,
          Fin.ofNat (data.map (fun b => b.val)).sum]⟩
  Debug := true

/-- The identifier of `data` in `checksumCid`, version 1 with codec `0x55`. -/
def cidOf (data : List Byte) : Cid :=
  ⟨[1, 0x55, 0x12, 1, Fin.ofNat (data.map (fun b => b.val)).sum]⟩

/-- An archive environment: the archive is a byte string in memory, a section is a
length byte followed by that many data bytes, and the block store returns the data of
the section at the offset the index gives, as go-car does, without hashing it. -/
def sectionCar (ienv : IndexEnv) (archive : List Byte) (roots : List Cid) : CarEnv where
  NewReadOnly := fun _ idx =>
    let get : Cid → Except Err Block := fun c =>
      match idx.GetAll ienv c with
      | (some err, _) => .error err
      | (none, []) => .error (.lib .ErrNotFound)
      | (none, off :: _) =>
        match archive.drop off with
        | [] => .error (.lib .ErrUnexpectedEOF)
        | len :: rest => .ok { data := rest.take len.val, cid := c }
    .ok { Get := get
          GetSize := fun c => match get c with
            | .error err => .error err
            | .ok blk => .ok blk.data.length
          Roots := .ok roots }

/-- A well-formed header: kind, epoch 429, a root identifier, network `mainnet`. -/
def goodHeader : Meta :=
  ⟨[⟨bytesOf "index_kind", bytesOf "cid-to-offset-and-size"⟩,
    ⟨bytesOf "epoch", [173, 1, 0, 0, 0, 0, 0, 0]⟩,
    ⟨bytesOf "root_cid", [1, 0x55, 0x12, 1, 7]⟩,
    ⟨bytesOf "network", bytesOf "mainnet"⟩]⟩

/-- The same header with the root identifier entry present but empty. -/
def emptyRootHeader : Meta :=
  ⟨[⟨bytesOf "index_kind", bytesOf "cid-to-offset-and-size"⟩,
    ⟨bytesOf "epoch", [173, 1, 0, 0, 0, 0, 0, 0]⟩,
    ⟨bytesOf "root_cid", []⟩,
    ⟨bytesOf "network", bytesOf "mainnet"⟩]⟩

/-- The key/value pairs of an index with one entry: the identifier of the bytes
`[1, 2, 3]` is at offset 2 with size 4. -/
def oneEntryTable : List (List Byte × List Byte) :=
  [((cidOf [1, 2, 3]).Bytes, [2, 0, 0, 0, 0, 0, 4, 0, 0])]

/-- The index built from `oneEntryTable` under a well-formed header. -/
def oneEntryIndex : IndexEnv := tableIndex goodHeader oneEntryTable

/-- A header whose epoch value has three bytes. -/
def shortEpochHeader : Meta :=
  ⟨[⟨bytesOf "index_kind", bytesOf "cid-to-offset-and-size"⟩,
    ⟨bytesOf "epoch", [173, 1, 0]⟩,
    ⟨bytesOf "root_cid", [1, 0x55, 0x12, 1, 7]⟩,
    ⟨bytesOf "network", bytesOf "mainnet"⟩]⟩

/-- An archive whose section at offset 2 holds `[1, 2, 3]`, as indexed. -/
def honestArchive : List Byte := [0, 0, 3, 1, 2, 3]

/-- An archive whose section at offset 2 holds other bytes than the indexed ones. -/
def tamperedArchive : List Byte := [0, 0, 3, 9, 9, 9]

/-- The reader that opening `oneEntryIndex` over an HTTP handle produces. -/
def sampleReader : CidToOffsetAndSize_Reader where
  file := .http (NewHTTPReaderAt "index")
  meta :=
    { IndexKind := Kind_CidToOffsetAndSize, Epoch := 429, RootCid := ⟨[1, 0x55, 0x12, 1, 7]⟩
      Network := bytesOf "mainnet" }
  index :=
    { Header := { Metadata := goodHeader }
      Entries := [(byteSumHash (cidOf [1, 2, 3]).Bytes, [2, 0, 0, 0, 0, 0, 4, 0, 0])] }

/-- A block store that answers every request with the same bytes. -/
def constantStore (data : List Byte) : Blockstore where
  Get := fun c => .ok { data := data, cid := c }
  GetSize := fun _ => .ok data.length

/-! ## Lemmas: decimal formatting -/

theorem decDigit_toNat (d : Nat) (h : d < 10) : (decDigit d).toNat - 48 = d := by
  interval_cases d <;> rfl

theorem decDigit_ne_minus (d : Nat) (h : d < 10) : decDigit d ≠ '-' := by
  interval_cases d <;> decide

theorem decValue_append_single (cs : List Char) (ch : Char) :
    decValue (cs ++ [ch]) = 10 * decValue cs + (ch.toNat - 48) := by
  simp [decValue, List.foldl_append]

theorem formatBits_acc (fuel : Nat) : ∀ (u : Nat) (acc : List Char),
    formatBits fuel u acc = formatBits fuel u [] ++ acc := by
  induction fuel with
  | zero => intro u acc; simp [formatBits]
  | succ f ih =>
    intro u acc
    by_cases hu : 10 ≤ u
    · simp only [formatBits, hu, if_true]
      rw [ih (u / 10) (decDigit (u % 10) :: acc), ih (u / 10) [decDigit (u % 10)]]
      simp
    · simp [formatBits, hu]

theorem decValue_formatBits (fuel : Nat) : ∀ (u : Nat), u < fuel →
    decValue (formatBits fuel u []) = u := by
  induction fuel with
  | zero => intro u h; omega
  | succ f ih =>
    intro u h
    by_cases hu : 10 ≤ u
    · simp only [formatBits, hu, if_true]
      rw [formatBits_acc, decValue_append_single, ih (u / 10) (by omega),
        decDigit_toNat _ (Nat.mod_lt _ (by decide))]
      omega
    · simp only [formatBits, hu, if_false]
      have := decDigit_toNat u (by omega)
      simp [decValue, this]

theorem formatBits_head (fuel : Nat) : ∀ (u : Nat) (acc : List Char),
    ∃ d tl, d < 10 ∧ formatBits (fuel + 1) u acc = decDigit d :: tl := by
  induction fuel with
  | zero =>
    intro u acc
    by_cases hu : 10 ≤ u
    · exact ⟨u % 10, acc, Nat.mod_lt _ (by decide), by simp [formatBits, hu]⟩
    · exact ⟨u, acc, by omega, by simp [formatBits, hu]⟩
  | succ f ih =>
    intro u acc
    by_cases hu : 10 ≤ u
    · obtain ⟨d, tl, hd, htl⟩ := ih (u / 10) (decDigit (u % 10) :: acc)
      refine ⟨d, tl, hd, ?_⟩
      rw [← htl]
      conv => lhs; unfold formatBits
      simp [hu]
    · exact ⟨u, acc, by omega, by simp [formatBits, hu]⟩

theorem ParseInt_digits (d : Nat) (hd : d < 10) (tl : List Char) :
    ParseInt (decDigit d :: tl) = (decValue (decDigit d :: tl) : Int) := by
  have h := decDigit_ne_minus d hd
  unfold ParseInt
  split
  · rename_i heq
    simp only [List.cons.injEq] at heq
    exact absurd heq.1 h
  · rfl

theorem ParseInt_FormatInt (i : Int) : ParseInt (FormatInt i) = i := by
  unfold FormatInt
  by_cases hi : i < 0
  · simp only [hi, if_true]
    have : ParseInt ('-' :: formatBits (i.natAbs + 1) i.natAbs []) =
        -(decValue (formatBits (i.natAbs + 1) i.natAbs []) : Int) := by
      simp [ParseInt]
    rw [this, decValue_formatBits _ _ (Nat.lt_succ_self _)]
    omega
  · simp only [hi, if_false]
    obtain ⟨d, tl, hd, htl⟩ := formatBits_head i.natAbs i.natAbs []
    rw [htl, ParseInt_digits d hd, ← htl, decValue_formatBits _ _ (Nat.lt_succ_self _)]
    omega

theorem lastByte_eq (off : Int) (len : Nat)
    (hlo : -(2 ^ 63) ≤ off + (len : Int) - 1) (hhi : off + (len : Int) - 1 < 2 ^ 63) :
    lastByte off len = off + (len : Int) - 1 := by
  unfold lastByte wrapInt64
  have e : ((off + (len : Int) + 2 ^ 63) % 2 ^ 64 - 2 ^ 63 - 1 + 2 ^ 63) % 2 ^ 64
      = (off + (len : Int) - 1 + 2 ^ 63) % 2 ^ 64 := by
    omega
  rw [e]
  omega

/-! ## Lemmas: `io.ReadFull` -/

theorem readLoop_done (min fuel : Nat) (s : ReadState) (h : ¬ (s.n < min ∧ s.err = none)) :
    readLoop min fuel s = s := by
  cases fuel with
  | zero => rfl
  | succ f => simp only [readLoop, h, if_false]

theorem readLoop_spec (L : Nat) : ∀ (cs : List (List Byte)) (fuel : Nat) (s : ReadState),
    cs.length < fuel → s.body.chunks = cs → s.err = none → s.buf.length = L → s.n ≤ L →
    (L ≤ s.n + cs.flatten.length →
      (readLoop L fuel s).n = L ∧
      (readLoop L fuel s).buf = s.buf.take s.n ++ cs.flatten.take (L - s.n)) ∧
    (s.n + cs.flatten.length < L →
      (readLoop L fuel s).n = s.n + cs.flatten.length ∧
      (readLoop L fuel s).err = some s.body.term) := by
  intro cs
  induction cs with
  | nil =>
    intro fuel s hf hc he hb hn
    obtain ⟨f, rfl⟩ : ∃ f, fuel = f + 1 := ⟨fuel - 1, by simp at hf; omega⟩
    constructor
    · intro hfull
      simp only [List.flatten_nil, List.length_nil, Nat.add_zero] at hfull
      have hnL : s.n = L := by omega
      rw [readLoop_done L (f + 1) s (by omega)]
      refine ⟨hnL, ?_⟩
      rw [hnL, ← hb]
      simp
    · intro hshort
      simp only [List.flatten_nil, List.length_nil, Nat.add_zero] at hshort
      have hcond : s.n < L ∧ s.err = none := ⟨hshort, he⟩
      simp only [readLoop, hcond, and_self, if_true, Body.Read, hc]
      rw [readLoop_done _ _ _ (by simp)]
      simp
  | cons c rest ih =>
    intro fuel s hf hc he hb hn
    obtain ⟨f, rfl⟩ : ∃ f, fuel = f + 1 := ⟨fuel - 1, by simp at hf; omega⟩
    have hf2 : rest.length < f := by simp at hf; omega
    by_cases hlt : s.n < L
    · have hcond : s.n < L ∧ s.err = none := ⟨hlt, he⟩
      by_cases hck : c.length ≤ s.buf.length - s.n
      · -- the whole chunk fits
        have hstep : readLoop L (f + 1) s = readLoop L f
            { n := s.n + c.length, err := none
              buf := s.buf.take s.n ++ c ++ s.buf.drop (s.n + c.length)
              body := { s.body with chunks := rest }, reads := s.reads + 1 } := by
          simp only [readLoop, hcond, and_self, if_true, Body.Read, hc, hck]
        rw [hstep]
        have hlen : (s.buf.take s.n ++ c ++ s.buf.drop (s.n + c.length)).length = L := by
          simp only [List.length_append, List.length_take, List.length_drop]
          omega
        have h := ih f
            { n := s.n + c.length, err := none
              buf := s.buf.take s.n ++ c ++ s.buf.drop (s.n + c.length)
              body := { s.body with chunks := rest }, reads := s.reads + 1 }
            hf2 rfl rfl hlen (by simp only; omega)
        simp only at h
        have htk : (s.buf.take s.n ++ c ++ s.buf.drop (s.n + c.length)).take (s.n + c.length)
            = s.buf.take s.n ++ c := by
          rw [List.take_append_of_le_length (by simp; omega)]
          rw [List.take_of_length_le (by simp; try omega)]
        constructor
        · intro hfull
          simp only [List.flatten_cons, List.length_append] at hfull
          obtain ⟨h1, h2⟩ := h.1 (by omega)
          refine ⟨h1, ?_⟩
          rw [h2, htk, List.flatten_cons, List.take_append_eq_append_take,
            List.take_of_length_le (by omega : c.length ≤ L - s.n)]
          simp only [List.append_assoc]
          congr 2
          congr 1
          omega
        · intro hshort
          simp only [List.flatten_cons, List.length_append] at hshort
          obtain ⟨h1, h2⟩ := h.2 (by omega)
          refine ⟨?_, h2⟩
          rw [h1]
          simp only [List.flatten_cons, List.length_append]
          omega
      · -- the chunk is longer than the room left: the buffer is filled
        have hk : s.buf.length - s.n < c.length := by omega
        have hstep : readLoop L (f + 1) s = readLoop L f
            { n := s.n + (c.take (s.buf.length - s.n)).length, err := none
              buf := s.buf.take s.n ++ c.take (s.buf.length - s.n)
                ++ s.buf.drop (s.n + (c.take (s.buf.length - s.n)).length)
              body := { s.body with chunks := c.drop (s.buf.length - s.n) :: rest }
              reads := s.reads + 1 } := by
          simp only [readLoop, hcond, and_self, if_true, Body.Read, hc, hck, if_false]
        have htl : (c.take (s.buf.length - s.n)).length = L - s.n := by
          rw [List.length_take, hb]; omega
        rw [hstep, readLoop_done _ _ _ (by simp only [htl]; omega)]
        constructor
        · intro _
          simp only [htl]
          refine ⟨by omega, ?_⟩
          rw [List.flatten_cons, List.take_append_of_le_length (by omega), hb,
            List.drop_of_length_le (by omega)]
          simp
        · intro hshort
          simp only [List.flatten_cons, List.length_append] at hshort
          omega
    · have hnL : s.n = L := by omega
      rw [readLoop_done L (f + 1) s (by omega)]
      constructor
      · intro _
        refine ⟨hnL, ?_⟩
        rw [hnL, ← hb]
        simp
      · intro hshort
        omega

theorem ReadFull_full (body : Body) (buf : List Byte) (h : buf.length ≤ body.bytes.length) :
    (ReadFull body buf).n = buf.length ∧ (ReadFull body buf).err = none ∧
    (ReadFull body buf).buf = body.bytes.take buf.length := by
  have hs := (readLoop_spec buf.length body.chunks (body.chunks.length + 1)
    { n := 0, err := none, buf := buf, body := body, reads := 0 }
    (Nat.lt_succ_self _) rfl rfl rfl (Nat.zero_le _)).1 (by simpa [Body.bytes] using h)
  simp only [List.take_zero, List.nil_append, Nat.sub_zero] at hs
  unfold ReadFull ReadAtLeast
  simp only [Nat.lt_irrefl, if_false, hs.1, Nat.le_refl, if_true]
  exact ⟨trivial, trivial, hs.2⟩

theorem ReadFull_short (body : Body) (buf : List Byte) (h : body.bytes.length < buf.length) :
    (ReadFull body buf).n = body.bytes.length ∧ (ReadFull body buf).err ≠ none := by
  have hs := (readLoop_spec buf.length body.chunks (body.chunks.length + 1)
    { n := 0, err := none, buf := buf, body := body, reads := 0 }
    (Nat.lt_succ_self _) rfl rfl rfl (Nat.zero_le _)).2 (by simpa [Body.bytes] using h)
  simp only [Nat.zero_add] at hs
  have hb : body.chunks.flatten.length = body.bytes.length := rfl
  unfold ReadFull ReadAtLeast
  simp only [Nat.lt_irrefl, if_false, hs.1, hs.2, hb, Nat.not_le.mpr h]
  split <;> simp [hs.1, hs.2, hb]

/-! ## Lemmas: `HTTPReaderAt.ReadAt` -/

theorem Header_Get_Set (h : Header) (key value : String) :
    (h.Set key value).Get key = some value := by
  simp [Header.Set, Header.Get]

theorem ReadAt_requests_sub (env : HTTPEnv) (h : HTTPReaderAt) (p : List Byte) (off : Int)
    (req : Request) (hreq : req ∈ (h.ReadAt env p off).requests) :
    ∃ req0, env.NewRequest "GET" h.url = .ok req0 ∧
      req = { req0 with
        Header := req0.Header.Set "Range" (Sprintf_bytes off (lastByte off p.length)) } := by
  unfold HTTPReaderAt.ReadAt at hreq
  cases hnr : env.NewRequest "GET" h.url with
  | error e => simp [hnr] at hreq
  | ok req0 =>
    refine ⟨req0, rfl, ?_⟩
    simp only [hnr] at hreq
    split at hreq
    · simpa using hreq
    · split at hreq <;> simpa using hreq

theorem ReadAt_requests_of_ok (env : HTTPEnv) (h : HTTPReaderAt) (p : List Byte) (off : Int)
    (req0 : Request) (hnr : env.NewRequest "GET" h.url = .ok req0) :
    (h.ReadAt env p off).requests = [{ req0 with
        Header := req0.Header.Set "Range" (Sprintf_bytes off (lastByte off p.length)) }] := by
  unfold HTTPReaderAt.ReadAt
  simp only [hnr]
  split
  · rfl
  · split <;> rfl

theorem ReadAt_of_response (env : HTTPEnv) (h : HTTPReaderAt) (p : List Byte) (off : Int)
    (req : Request) (resp : Response) (hreq : req ∈ (h.ReadAt env p off).requests)
    (hdo : env.Do req = .ok resp) :
    h.ReadAt env p off =
      if resp.StatusCode ≠ StatusPartialContent then
        { n := 0
          err := some (.errorf ("server does not support range requests: status " ++ resp.Status))
          p := p, requests := [req], bodyReads := 0 }
      else
        { n := (ReadFull resp.Body p).n, err := (ReadFull resp.Body p).err.map Err.lib
          p := (ReadFull resp.Body p).buf, requests := [req]
          bodyReads := (ReadFull resp.Body p).reads } := by
  obtain ⟨req0, hnr, rfl⟩ := ReadAt_requests_sub env h p off req hreq
  unfold HTTPReaderAt.ReadAt
  simp only [hnr, hdo]

theorem ReadAt_of_NewRequest_error (env : HTTPEnv) (h : HTTPReaderAt) (p : List Byte)
    (off : Int) (e : LibErr) (hnr : env.NewRequest "GET" h.url = .error e) :
    h.ReadAt env p off =
      { n := 0, err := some (.lib e), p := p, requests := [], bodyReads := 0 } := by
  simp [HTTPReaderAt.ReadAt, hnr]

theorem ReadAt_of_Do_error (env : HTTPEnv) (h : HTTPReaderAt) (p : List Byte) (off : Int)
    (req : Request) (e : LibErr) (hreq : req ∈ (h.ReadAt env p off).requests)
    (hdo : env.Do req = .error e) :
    h.ReadAt env p off =
      { n := 0, err := some (.lib e), p := p, requests := [req], bodyReads := 0 } := by
  obtain ⟨req0, hnr, rfl⟩ := ReadAt_requests_sub env h p off req hreq
  unfold HTTPReaderAt.ReadAt
  simp only [hnr, hdo]

theorem ReadFull_nil (b : Body) :
    ReadFull b [] = { n := 0, err := none, buf := [], body := b, reads := 0 } := by
  simp [ReadFull, ReadAtLeast, readLoop]

/-! ## The range reader: request bounds, status check, full read -/

/-- C3: every request `ReadAt(p, off)` hands to the client carries the Range header
`bytes=<off>-<last>` with both bounds written in decimal (reading the digits back
gives the bound), where `last` is `off+len(p)-1` computed in `int64`; exactly one
request is issued once the request can be built; and `last` is the mathematical
`off+len(p)-1` whenever that value fits `int64`. -/
theorem ReadAt_range_header (env : HTTPEnv) (h : HTTPReaderAt) (p : List Byte) (off : Int) :
    (∀ req ∈ (h.ReadAt env p off).requests,
      req.Header.Get "Range" = some (Sprintf_bytes off (lastByte off p.length))) ∧
    (∀ req0, env.NewRequest "GET" h.url = .ok req0 →
      (h.ReadAt env p off).requests.length = 1) ∧
    Sprintf_bytes off (lastByte off p.length) =
      String.mk ("bytes=".toList ++ FormatInt off ++ '-' :: FormatInt (lastByte off p.length)) ∧
    ParseInt (FormatInt off) = off ∧
    ParseInt (FormatInt (lastByte off p.length)) = lastByte off p.length ∧
    (-(2 ^ 63) ≤ off + (p.length : Int) - 1 → off + (p.length : Int) - 1 < 2 ^ 63 →
      lastByte off p.length = off + (p.length : Int) - 1) := by
  refine ⟨?_, ?_, rfl, ParseInt_FormatInt _, ParseInt_FormatInt _, lastByte_eq off p.length⟩
  · intro req hreq
    obtain ⟨req0, _, rfl⟩ := ReadAt_requests_sub env h p off req hreq
    exact Header_Get_Set _ _ _
  · intro req0 hnr
    rw [ReadAt_requests_of_ok env h p off req0 hnr]
    rfl

/-- C3 at a concrete input: reading 42 bytes at offset 1000 sends one request, with
header `bytes=1000-1041`. -/
theorem ReadAt_range_header_witness :
    ((NewHTTPReaderAt "car").ReadAt
        (fixedServer ⟨206, "206 Partial Content", ⟨[], .EOF⟩⟩)
        (List.replicate 42 0) 1000).requests.length = 1 ∧
    lastByte 1000 (List.replicate 42 (0 : Byte)).length = 1000 + 42 - 1 ∧
    Sprintf_bytes 1000 (lastByte 1000 42) = "bytes=1000-1041" :=
  ⟨(ReadAt_range_header (fixedServer ⟨206, "206 Partial Content", ⟨[], .EOF⟩⟩)
      (NewHTTPReaderAt "car") (List.replicate 42 0) 1000).2.1 _ rfl,
   (ReadAt_range_header (fixedServer ⟨206, "206 Partial Content", ⟨[], .EOF⟩⟩)
      (NewHTTPReaderAt "car") (List.replicate 42 0) 1000).2.2.2.2.2 (by simp) (by simp),
   by decide⟩

/-- C4: when the response to the request has a status other than 206, `ReadAt`
returns 0 and the range-support error, leaves the buffer as it was and makes no
read on the response body. -/
theorem ReadAt_rejects_other_status (env : HTTPEnv) (h : HTTPReaderAt) (p : List Byte)
    (off : Int) (req : Request) (resp : Response)
    (hreq : req ∈ (h.ReadAt env p off).requests) (hdo : env.Do req = .ok resp)
    (hs : resp.StatusCode ≠ StatusPartialContent) :
    (h.ReadAt env p off).n = 0 ∧
    (h.ReadAt env p off).err =
      some (.errorf ("server does not support range requests: status " ++ resp.Status)) ∧
    (h.ReadAt env p off).p = p ∧
    (h.ReadAt env p off).bodyReads = 0 := by
  rw [ReadAt_of_response env h p off req resp hreq hdo]
  simp [hs]

/-- C4 at a concrete input: a `200 OK` carrying the whole file is refused and the
buffer keeps its bytes. -/
theorem ReadAt_rejects_other_status_witness :
    ((NewHTTPReaderAt "car").ReadAt
        (fixedServer ⟨200, "200 OK", ⟨[[1, 2, 3, 4, 5]], .EOF⟩⟩) [7, 7] 1).n = 0 ∧
    ((NewHTTPReaderAt "car").ReadAt
        (fixedServer ⟨200, "200 OK", ⟨[[1, 2, 3, 4, 5]], .EOF⟩⟩) [7, 7] 1).err =
      some (.errorf ("server does not support range requests: status " ++ "200 OK")) ∧
    ((NewHTTPReaderAt "car").ReadAt
        (fixedServer ⟨200, "200 OK", ⟨[[1, 2, 3, 4, 5]], .EOF⟩⟩) [7, 7] 1).p = [7, 7] ∧
    ((NewHTTPReaderAt "car").ReadAt
        (fixedServer ⟨200, "200 OK", ⟨[[1, 2, 3, 4, 5]], .EOF⟩⟩) [7, 7] 1).bodyReads = 0 :=
  ReadAt_rejects_other_status (fixedServer ⟨200, "200 OK", ⟨[[1, 2, 3, 4, 5]], .EOF⟩⟩)
    (NewHTTPReaderAt "car") [7, 7] 1
    ⟨"GET", "car", ⟨[("Range", "bytes=1-2")]⟩⟩ ⟨200, "200 OK", ⟨[[1, 2, 3, 4, 5]], .EOF⟩⟩
    (by decide) rfl (by decide)

/-- C5: when the response has status 206, a body holding fewer bytes than `len(p)`
makes `ReadAt` return a non-nil error (with the count of bytes that did arrive), and
a body holding at least `len(p)` bytes makes it return `(len(p), nil)` with `p` equal
to the first `len(p)` bytes of the body. -/
theorem ReadAt_partial_content (env : HTTPEnv) (h : HTTPReaderAt) (p : List Byte)
    (off : Int) (req : Request) (resp : Response)
    (hreq : req ∈ (h.ReadAt env p off).requests) (hdo : env.Do req = .ok resp)
    (hs : resp.StatusCode = StatusPartialContent) :
    (resp.Body.bytes.length < p.length →
      (∃ e, (h.ReadAt env p off).err = some e) ∧
      (h.ReadAt env p off).n = resp.Body.bytes.length) ∧
    (p.length ≤ resp.Body.bytes.length →
      (h.ReadAt env p off).n = p.length ∧
      (h.ReadAt env p off).err = none ∧
      (h.ReadAt env p off).p = resp.Body.bytes.take p.length) := by
  rw [ReadAt_of_response env h p off req resp hreq hdo]
  simp only [hs, ne_eq, not_true_eq_false, if_false]
  constructor
  · intro hshort
    obtain ⟨hn, herr⟩ := ReadFull_short resp.Body p hshort
    refine ⟨?_, hn⟩
    cases he : (ReadFull resp.Body p).err with
    | none => exact absurd he herr
    | some e => exact ⟨.lib e, rfl⟩
  · intro hfull
    obtain ⟨hn, herr, hbuf⟩ := ReadFull_full resp.Body p hfull
    exact ⟨hn, by rw [herr]; rfl, hbuf⟩

/-- C5 at concrete inputs: 42 bytes are asked for; a body of 40 bytes gives the
unexpected-EOF error, a body of 42 bytes in two chunks fills the buffer. -/
theorem ReadAt_partial_content_witness :
    (∃ e, ((NewHTTPReaderAt "car").ReadAt
        (fixedServer ⟨206, "206 Partial Content", ⟨[List.replicate 40 1], .EOF⟩⟩)
        (List.replicate 42 0) 1000).err = some e) ∧
    ((NewHTTPReaderAt "car").ReadAt
        (fixedServer ⟨206, "206 Partial Content",
          ⟨[List.replicate 40 1, List.replicate 2 2], .EOF⟩⟩)
        (List.replicate 42 0) 1000).err = none :=
  ⟨((ReadAt_partial_content
        (fixedServer ⟨206, "206 Partial Content", ⟨[List.replicate 40 1], .EOF⟩⟩)
        (NewHTTPReaderAt "car") (List.replicate 42 0) 1000
        ⟨"GET", "car", ⟨[("Range", "bytes=1000-1041")]⟩⟩
        ⟨206, "206 Partial Content", ⟨[List.replicate 40 1], .EOF⟩⟩
        (by decide) rfl rfl).1 (by decide)).1,
   ((ReadAt_partial_content
        (fixedServer ⟨206, "206 Partial Content",
          ⟨[List.replicate 40 1, List.replicate 2 2], .EOF⟩⟩)
        (NewHTTPReaderAt "car") (List.replicate 42 0) 1000
        ⟨"GET", "car", ⟨[("Range", "bytes=1000-1041")]⟩⟩
        ⟨206, "206 Partial Content", ⟨[List.replicate 40 1, List.replicate 2 2], .EOF⟩⟩
        (by decide) rfl rfl).2 (by decide)).2.1⟩

/-- C8, the claim as written fails: with an empty buffer at offset 0 a request is
still sent (its header is `bytes=0--1`), and a server answering `200 OK` makes the
call return an error. -/
theorem ReadAt_empty_buffer_counterexample :
    ((NewHTTPReaderAt "car").ReadAt
        (fixedServer ⟨200, "200 OK", ⟨[[1, 2, 3]], .EOF⟩⟩) [] 0).requests =
      [⟨"GET", "car", ⟨[("Range", "bytes=0--1")]⟩⟩] ∧
    ((NewHTTPReaderAt "car").ReadAt
        (fixedServer ⟨200, "200 OK", ⟨[[1, 2, 3]], .EOF⟩⟩) [] 0).err =
      some (.errorf "server does not support range requests: status 200 OK") := by
  decide

/-- C8 as amended: with an empty buffer `ReadAt` returns 0 bytes read, leaves the
buffer empty and reads nothing from a body; it still sends one request whenever the
request can be built, and its error is nil exactly when that request is answered
with status 206. -/
theorem ReadAt_empty_buffer (env : HTTPEnv) (h : HTTPReaderAt) (off : Int) :
    (h.ReadAt env [] off).n = 0 ∧
    (h.ReadAt env [] off).p = [] ∧
    (h.ReadAt env [] off).bodyReads = 0 ∧
    (∀ req0, env.NewRequest "GET" h.url = .ok req0 →
      (h.ReadAt env [] off).requests.length = 1) ∧
    ((h.ReadAt env [] off).err = none ↔
      ∃ req ∈ (h.ReadAt env [] off).requests, ∃ resp,
        env.Do req = .ok resp ∧ resp.StatusCode = StatusPartialContent) := by
  cases hnr : env.NewRequest "GET" h.url with
  | error e =>
    rw [ReadAt_of_NewRequest_error env h [] off e hnr]
    refine ⟨rfl, rfl, rfl, ?_, ?_⟩
    · intro req0 h0
      cases h0
    · simp
  | ok req0 =>
    have hreqs := ReadAt_requests_of_ok env h [] off req0 hnr
    have hlen : (h.ReadAt env [] off).requests.length = 1 := by rw [hreqs]; rfl
    obtain ⟨req, hreq⟩ : ∃ req, (h.ReadAt env [] off).requests = [req] := ⟨_, hreqs⟩
    have hmem : req ∈ (h.ReadAt env [] off).requests := by rw [hreq]; simp
    cases hdo : env.Do req with
    | error e =>
      rw [ReadAt_of_Do_error env h [] off req e hmem hdo]
      refine ⟨rfl, rfl, rfl, fun _ _ => rfl, ?_⟩
      simp [hdo]
    | ok resp =>
      rw [ReadAt_of_response env h [] off req resp hmem hdo]
      by_cases hs : resp.StatusCode = StatusPartialContent
      · simp [hs, hdo, ReadFull_nil]
      · simp [hs, hdo]

/-- C8 as amended, at concrete inputs: one request is sent for an empty buffer, and
a 206 answer gives a nil error. -/
theorem ReadAt_empty_buffer_witness :
    ((NewHTTPReaderAt "car").ReadAt
        (fixedServer ⟨206, "206 Partial Content", ⟨[], .EOF⟩⟩) [] 5).requests.length = 1 ∧
    ((NewHTTPReaderAt "car").ReadAt
        (fixedServer ⟨206, "206 Partial Content", ⟨[], .EOF⟩⟩) [] 5).err = none :=
  ⟨(ReadAt_empty_buffer (fixedServer ⟨206, "206 Partial Content", ⟨[], .EOF⟩⟩)
      (NewHTTPReaderAt "car") 5).2.2.2.1 _ rfl,
   (ReadAt_empty_buffer (fixedServer ⟨206, "206 Partial Content", ⟨[], .EOF⟩⟩)
      (NewHTTPReaderAt "car") 5).2.2.2.2.2
      ⟨⟨"GET", "car", ⟨[("Range", "bytes=5-4")]⟩⟩, by decide,
        ⟨206, "206 Partial Content", ⟨[], .EOF⟩⟩, rfl, rfl⟩⟩

/-! ## The validating block store and the block service -/

theorem NewBlockWithCid_of_Sum (env : CidEnv) (data : List Byte) (c : Cid)
    (h : env.Sum (env.Prefix c) data = .ok c) :
    NewBlockWithCid env data c = .ok { data := data, cid := c } := by
  unfold NewBlockWithCid
  cases env.Debug <;> simp [h, Cid.Equals]

/-- C1: `ReadOnlyBlockstoreValidator.Get(c)` returns a block only when the inner
store returned bytes whose identifier, recomputed as `c.Prefix().Sum(data)`, equals
`c`, and that block is the inner bytes paired with `c`; when the recomputed
identifier differs from `c` the result is the hash-mismatch error and no block; when
it equals `c` the call succeeds. -/
theorem validator_Get_checks_hash (env : CidEnv) (b : ReadOnlyBlockstoreValidator)
    (c : Cid) :
    (∀ out, b.Get env c = .ok out →
      ∃ blk, b.Blockstore.Get c = .ok blk ∧
        env.Sum (env.Prefix c) blk.RawData = .ok c ∧
        out = { data := blk.RawData, cid := c }) ∧
    (∀ blk calculated, b.Blockstore.Get c = .ok blk →
      env.Sum (env.Prefix c) blk.RawData = .ok calculated → calculated ≠ c →
      b.Get env c = .error (.lib .ErrHashMismatch)) ∧
    (∀ blk, b.Blockstore.Get c = .ok blk →
      env.Sum (env.Prefix c) blk.RawData = .ok c →
      b.Get env c = .ok { data := blk.RawData, cid := c }) := by
  refine ⟨?_, ?_, ?_⟩
  · intro out hout
    unfold ReadOnlyBlockstoreValidator.Get at hout
    cases hg : b.Blockstore.Get c with
    | error e => simp [hg] at hout
    | ok blk =>
      cases hsum : env.Sum (env.Prefix c) blk.RawData with
      | error e => simp [hg, hsum] at hout
      | ok calculated =>
        by_cases heq : calculated = c
        · subst heq
          simp only [hg, hsum, Cid.Equals, decide_True, Bool.not_true, Bool.false_eq_true,
            if_false, NewBlockWithCid_of_Sum env _ _ hsum, Except.ok.injEq] at hout
          exact ⟨blk, rfl, hsum, hout.symm⟩
        · simp [hg, hsum, Cid.Equals, heq] at hout
  · intro blk calculated hg hsum hne
    unfold ReadOnlyBlockstoreValidator.Get
    simp [hg, hsum, Cid.Equals, hne]
  · intro blk hg hsum
    unfold ReadOnlyBlockstoreValidator.Get
    simp [hg, hsum, Cid.Equals, NewBlockWithCid_of_Sum env _ _ hsum]

/-- C1 at concrete inputs: bytes that do not hash to the requested identifier give
the hash-mismatch error, bytes that do are returned paired with the identifier. -/
theorem validator_Get_checks_hash_witness :
    ReadOnlyBlockstoreValidator.Get checksumCid ⟨constantStore [9, 9, 9]⟩ (cidOf [1, 2, 3])
      = .error (.lib .ErrHashMismatch) ∧
    ReadOnlyBlockstoreValidator.Get checksumCid ⟨constantStore [3, 2, 1]⟩ (cidOf [1, 2, 3])
      = .ok { data := [3, 2, 1], cid := cidOf [1, 2, 3] } :=
  ⟨(validator_Get_checks_hash checksumCid ⟨constantStore [9, 9, 9]⟩ (cidOf [1, 2, 3])).2.1
      ⟨[9, 9, 9], cidOf [1, 2, 3]⟩ (cidOf [9, 9, 9]) rfl rfl (by decide),
   (validator_Get_checks_hash checksumCid ⟨constantStore [3, 2, 1]⟩ (cidOf [1, 2, 3])).2.2
      ⟨[3, 2, 1], cidOf [1, 2, 3]⟩ rfl rfl⟩

/-- The block store inside the service built by `newBlockServiceFromCAR` is the
archive block store itself: whatever block that store returns, the service returns. -/
theorem newBlockServiceFromCAR_store (ienv : IndexEnv) (cenv : CarEnv)
    (carUrl indexUrl : String) (svc : BlockService) (roots : List Cid)
    (h : newBlockServiceFromCAR ienv cenv carUrl indexUrl = .ok (svc, roots)) :
    ∃ idx bs, cenv.NewReadOnly (NewHTTPReaderAt carUrl) idx = .ok bs ∧
      ∀ c blk, bs.Get c = .ok blk → svc.GetBlock c = .ok blk := by
  unfold newBlockServiceFromCAR at h
  simp only at h
  split at h
  · cases h
  · cases h
  · rename_i idx _
    split at h
    · cases h
    · rename_i bs hbs
      split at h
      · cases h
      · simp only [Ret.ok.injEq, Prod.mk.injEq] at h
        refine ⟨idx, bs, hbs, ?_⟩
        intro c blk hget
        rw [← h.1]
        simp [BlockService.GetBlock, blockservice.New, ReadOnly.toBlockstore, hget]

/-- C2, the code at the failing input: the index maps the identifier of `[1, 2, 3]`
to a section of the archive that holds `[9, 9, 9]`. The service is built, a `Get`
through it returns the bytes `[9, 9, 9]` under the requested identifier although
they hash to another identifier, and `ReadOnlyBlockstoreValidator` placed over the
same store would have answered with the hash-mismatch error. -/
theorem newBlockServiceFromCAR_returns_unverified :
    ∃ svc roots,
      newBlockServiceFromCAR oneEntryIndex (sectionCar oneEntryIndex tamperedArchive [])
        "car" "index" = .ok (svc, roots) ∧
      svc.GetBlock (cidOf [1, 2, 3]) = .ok { data := [9, 9, 9], cid := cidOf [1, 2, 3] } ∧
      checksumCid.Sum (checksumCid.Prefix (cidOf [1, 2, 3])) [9, 9, 9]
        = .ok (cidOf [9, 9, 9]) ∧
      cidOf [9, 9, 9] ≠ cidOf [1, 2, 3] ∧
      ReadOnlyBlockstoreValidator.Get checksumCid ⟨svc.Blockstore⟩ (cidOf [1, 2, 3])
        = .error (.lib .ErrHashMismatch) :=
  ⟨_, _, rfl, rfl, rfl, by decide, rfl⟩

/-! ## Lemmas: lookup in a built index -/

/-- C7, the claim as written fails: this header has all four keys, a network of the
allow-list and the expected kind, the compact index opens, and still
`OpenWithReader_CidToOffsetAndSize` fails, because the root identifier bytes do not
parse. -/
theorem OpenWithReader_counterexample :
    (tableIndex emptyRootHeader []).Open (.http (NewHTTPReaderAt "index"))
      = .ok { Header := { Metadata := emptyRootHeader }, Entries := [] } ∧
    (emptyRootHeader.Get (tableIndex emptyRootHeader []).MetadataKey_Kind).2 = true ∧
    (emptyRootHeader.Get (tableIndex emptyRootHeader []).MetadataKey_Epoch).2 = true ∧
    (emptyRootHeader.Get (tableIndex emptyRootHeader []).MetadataKey_RootCid).2 = true ∧
    (emptyRootHeader.Get (tableIndex emptyRootHeader []).MetadataKey_Network).2 = true ∧
    (tableIndex emptyRootHeader []).IsValidNetwork
      (emptyRootHeader.Get (tableIndex emptyRootHeader []).MetadataKey_Network).1 = true ∧
    (emptyRootHeader.Get (tableIndex emptyRootHeader []).MetadataKey_Kind).1
      = Kind_CidToOffsetAndSize ∧
    OpenWithReader_CidToOffsetAndSize (tableIndex emptyRootHeader [])
        (.http (NewHTTPReaderAt "index"))
      = .error (.lib (.other "invalid cid")) :=
  ⟨rfl, rfl, rfl, rfl, rfl, rfl, rfl, rfl⟩

/-- When the compact index opens, `OpenWithReader_CidToOffsetAndSize` panics exactly
when the kind and epoch keys are present and the epoch value has fewer than eight
bytes: the epoch is decoded without a length check. -/
theorem OpenWithReader_panics_iff (env : IndexEnv) (reader : ReaderAtCloser) (db : DB)
    (hopen : env.Open reader = .ok db) :
    (∃ msg, OpenWithReader_CidToOffsetAndSize env reader = .panic msg) ↔
      ((db.Header.Metadata.Get env.MetadataKey_Kind).2 = true ∧
       (db.Header.Metadata.Get env.MetadataKey_Epoch).2 = true ∧
       (db.Header.Metadata.Get env.MetadataKey_Epoch).1.length < 8) := by
  unfold OpenWithReader_CidToOffsetAndSize getDefaultMetadata BtoUint64
  simp only [hopen]
  cases hk : (db.Header.Metadata.Get env.MetadataKey_Kind).2 <;>
  cases he : (db.Header.Metadata.Get env.MetadataKey_Epoch).2 <;>
  by_cases hlen : (db.Header.Metadata.Get env.MetadataKey_Epoch).1.length < 8 <;>
  simp [hlen]
  cases hr : (db.Header.Metadata.Get env.MetadataKey_RootCid).2 <;>
  cases hn : (db.Header.Metadata.Get env.MetadataKey_Network).2 <;>
  cases hc : env.Cast (db.Header.Metadata.Get env.MetadataKey_RootCid).1 <;>
  simp [Metadata.AssertIndexKind]
  split_ifs <;> simp

/-- A header whose epoch value has three bytes makes the open panic. -/
theorem OpenWithReader_short_epoch :
    OpenWithReader_CidToOffsetAndSize (tableIndex shortEpochHeader [])
        (.http (NewHTTPReaderAt "index"))
      = .panic "index out of range" :=
  rfl

/-- C7 as amended: for an index the compact-index layer opens,
`OpenWithReader_CidToOffsetAndSize` succeeds if and only if all four metadata keys
are present, the epoch value has at least eight bytes, the root identifier bytes
parse to an identifier that is not the undefined one, the network is in the
allow-list and the kind equals `cid-to-offset-and-size`; when it does not succeed,
and it is not the case that a present epoch value after a present kind is shorter
than eight bytes, it returns an error and no reader; and when it succeeds the reader
holds the given handle and the opened index. -/
theorem OpenWithReader_succeeds_iff (env : IndexEnv) (reader : ReaderAtCloser) (db : DB)
    (hopen : env.Open reader = .ok db) :
    ((∃ r, OpenWithReader_CidToOffsetAndSize env reader = .ok r) ↔
      ((db.Header.Metadata.Get env.MetadataKey_Kind).2 = true ∧
       (db.Header.Metadata.Get env.MetadataKey_Epoch).2 = true ∧
       8 ≤ (db.Header.Metadata.Get env.MetadataKey_Epoch).1.length ∧
       (db.Header.Metadata.Get env.MetadataKey_RootCid).2 = true ∧
       (db.Header.Metadata.Get env.MetadataKey_Network).2 = true ∧
       (∃ root, env.Cast (db.Header.Metadata.Get env.MetadataKey_RootCid).1 = .ok root ∧
          root ≠ Cid.Undef) ∧
       env.IsValidNetwork (db.Header.Metadata.Get env.MetadataKey_Network).1 = true ∧
       (db.Header.Metadata.Get env.MetadataKey_Kind).1 = Kind_CidToOffsetAndSize)) ∧
    ((¬ ∃ r, OpenWithReader_CidToOffsetAndSize env reader = .ok r) →
      ¬ ((db.Header.Metadata.Get env.MetadataKey_Kind).2 = true ∧
         (db.Header.Metadata.Get env.MetadataKey_Epoch).2 = true ∧
         (db.Header.Metadata.Get env.MetadataKey_Epoch).1.length < 8) →
      ∃ e, OpenWithReader_CidToOffsetAndSize env reader = .error e) ∧
    (∀ r, OpenWithReader_CidToOffsetAndSize env reader = .ok r →
      r.file = reader ∧ r.index = db) := by
  refine ⟨?_, ?_, ?_⟩
  · unfold OpenWithReader_CidToOffsetAndSize getDefaultMetadata BtoUint64
    simp only [hopen]
    cases hk : (db.Header.Metadata.Get env.MetadataKey_Kind).2 <;>
    cases he : (db.Header.Metadata.Get env.MetadataKey_Epoch).2 <;>
    by_cases hlen : (db.Header.Metadata.Get env.MetadataKey_Epoch).1.length < 8 <;>
    simp [hlen]
    have h8 : 8 ≤ (db.Header.Metadata.Get env.MetadataKey_Epoch).1.length := by omega
    cases hr : (db.Header.Metadata.Get env.MetadataKey_RootCid).2 <;>
    cases hn : (db.Header.Metadata.Get env.MetadataKey_Network).2 <;>
    cases hc : env.Cast (db.Header.Metadata.Get env.MetadataKey_RootCid).1 <;>
    simp [Metadata.AssertIndexKind, h8]
    rename_i root
    cases hv : env.IsValidNetwork (db.Header.Metadata.Get env.MetadataKey_Network).1 <;>
    by_cases hu : root = Cid.Undef <;>
    by_cases hkind :
      (db.Header.Metadata.Get env.MetadataKey_Kind).1 = Kind_CidToOffsetAndSize <;>
    simp [hu, hkind]
  · intro hno hnp
    cases h : OpenWithReader_CidToOffsetAndSize env reader with
    | error e => exact ⟨e, rfl⟩
    | ok r => exact absurd ⟨r, h⟩ hno
    | panic msg => exact absurd ((OpenWithReader_panics_iff env reader db hopen).mp ⟨msg, h⟩) hnp
  · intro r h
    unfold OpenWithReader_CidToOffsetAndSize at h
    simp only [hopen] at h
    split at h
    · cases h
    · cases h
    · split at h
      · cases h
      · split at h
        · cases h
        · split at h
          · cases h
          · simp only [Ret.ok.injEq] at h
            subst h
            exact ⟨rfl, rfl⟩

/-- C7 as amended, at concrete inputs: the well-formed header opens, and a header
without the root identifier key gives an error. -/
theorem OpenWithReader_succeeds_iff_witness :
    (∃ r, OpenWithReader_CidToOffsetAndSize oneEntryIndex (.http (NewHTTPReaderAt "index"))
      = .ok r) ∧
    (∃ e, OpenWithReader_CidToOffsetAndSize (tableIndex emptyRootHeader [])
      (.http (NewHTTPReaderAt "index")) = .error e) :=
  ⟨(OpenWithReader_succeeds_iff oneEntryIndex (.http (NewHTTPReaderAt "index"))
      sampleReader.index rfl).1.2
      ⟨rfl, rfl, by decide, rfl, rfl, ⟨⟨[1, 0x55, 0x12, 1, 7]⟩, rfl, by decide⟩, rfl, rfl⟩,
   (OpenWithReader_succeeds_iff (tableIndex emptyRootHeader [])
      (.http (NewHTTPReaderAt "index"))
      { Header := { Metadata := emptyRootHeader }, Entries := [] } rfl).2.1
      (by rintro ⟨r, hr⟩; cases hr) (by decide)⟩

/-- C10: `Get(cid.Undef)` returns no record and the undefined-identifier error
without any lookup in the index, and `Get(k)` returns that error only when `k` is the
undefined identifier. -/
theorem Get_undefined (env : IndexEnv) (r : CidToOffsetAndSize_Reader) (k : Cid) :
    (r.Get env Cid.Undef).record = .error (.errorf "cid is undefined") ∧
    (r.Get env Cid.Undef).lookups = [] ∧
    ((r.Get env k).record = .error (.errorf "cid is undefined") ↔ k = Cid.Undef) := by
  refine ⟨by simp [CidToOffsetAndSize_Reader.Get], by simp [CidToOffsetAndSize_Reader.Get], ?_⟩
  constructor
  · intro hrec
    by_contra hk
    unfold CidToOffsetAndSize_Reader.Get at hrec
    simp only [hk, if_false] at hrec
    split at hrec
    · simp at hrec
    · split at hrec <;> simp at hrec
  · intro hk
    subst hk
    simp [CidToOffsetAndSize_Reader.Get]

end OldFaithful
